import Mathlib

/-!
Shallow embedding of `src/scripts/viz_p5.py` (InsightifyCore's graph
visualizer) and proofs about it.

The Python script normalizes raw node/edge records (`load_graph`), builds a
`networkx.DiGraph` (`build_graph`), computes a deterministic layered layout
(`layered_layout`), resolves edge styles and labels (`draw_graph`,
`_short_label`) and drives everything from `main`.

Conventions of the embedding:
- Python floats are modelled as exact rationals (`ℚ`); the layout formulas
  use only literals, subtraction, division by 2 and multiplication by the
  gap constant 2.2, so the formulas are represented exactly.
- Python dicts keyed by node id are modelled as association lists with
  last-write-wins lookup (`posLookup`) or in-place update (`updateAssoc`),
  matching CPython's insertion-ordered dict semantics.
- Fallible Python code (the `int(...)` coercion which can raise
  `ValueError`/`TypeError`, and `networkx`'s `add_node` which raises
  `ValueError` on a `None` key) is modelled with `Except`.
- Python string comparison (used by `sorted` on node ids) is lexicographic
  on code points; `charListLe`/`strLe` implement exactly that order on
  `String.data`.
-/

/-- A scalar JSON value as it may appear in the `layer` field of a raw node
record. Floats are not modelled; layer values are integers, strings,
booleans or null in practice. -/
inductive JVal where
  | jnull : JVal
  | jint (n : Int) : JVal
  | jstr (s : String) : JVal
  | jbool (b : Bool) : JVal
deriving DecidableEq, Repr

/-- Digit accumulator for `pyStrToInt?`: consumes decimal digits, failing on
any non-digit character. -/
def digitsToNatAux : List Char → Nat → Option Nat
  | [], acc => some acc
  | c :: cs, acc =>
    if c.isDigit then digitsToNatAux cs (acc * 10 + (c.toNat - 48)) else none

/-- All-digit parse of a nonempty character list. -/
def digitsToNat? : List Char → Option Nat
  | [] => none
  | cs => digitsToNatAux cs 0

/-- Python `int(s)` on a decimal string: optional sign followed by digits
(whitespace/underscore tolerance of CPython is not modelled; it does not
affect which inputs are error conditions in the claims considered). -/
def pyStrToInt? (s : String) : Option Int :=
  match s.data with
  | '-' :: rest => (digitsToNat? rest).map (fun n => -(n : Int))
  | '+' :: rest => (digitsToNat? rest).map (fun n => (n : Int))
  | l => (digitsToNat? l).map (fun n => (n : Int))

/-- Python `int(v)` on a scalar value: ints pass through, booleans coerce to
0/1, strings are parsed, `None` raises `TypeError`, unparsable strings raise
`ValueError`. The exception is modelled as `Except.error`. -/
def pyInt : JVal → Except String Int
  | JVal.jint n => Except.ok n
  | JVal.jbool b => Except.ok (if b then 1 else 0)
  | JVal.jnull => Except.error "TypeError: int() argument is None"
  | JVal.jstr s =>
    match pyStrToInt? s with
    | some n => Except.ok n
    | none => Except.error ("ValueError: invalid literal for int(): " ++ s)

/-- Python `a or b` on two optional strings, where a missing key (`None`)
and the empty string are falsy: returns `a` if it is truthy, else `b`. -/
def pyOrS (a b : Option String) : Option String :=
  match a with
  | some s => if s = "" then b else some s
  | none => b

/-- A raw node record as read from JSON: the keys `id`, `ID`, `name`,
`Name`, `layer`, `kind` may each be present or absent. String-valued keys
are modelled as `Option String` (`none` = key absent), the layer as an
optional scalar. -/
structure RawNode where
  idK : Option String
  IDK : Option String
  nameK : Option String
  NameK : Option String
  layerK : Option JVal
  kindK : Option String
deriving DecidableEq, Repr

/-- A raw edge record as read from JSON. -/
structure RawEdge where
  idK : Option String
  sourceK : Option String
  targetK : Option String
  typeK : Option String
deriving DecidableEq, Repr

/-- A normalized node, the dict built by `load_graph`:
`id = n.get("id") or n.get("ID")`, `name = n.get("name") or n.get("Name")
or n.get("id")`, `layer = int(n.get("layer", 0))`, `kind = n.get("kind",
"unknown")`. -/
structure NNode where
  id : Option String
  name : Option String
  layer : Int
  kind : String
deriving DecidableEq, Repr

/-- A normalized edge, the dict built by `load_graph`:
`type = e.get("type", "depends_on")`. -/
structure NEdge where
  id : Option String
  source : Option String
  target : Option String
  type : String
deriving DecidableEq, Repr

/-- Normalization of one node record inside `load_graph`. The `int(...)`
coercion of the layer can raise, which aborts normalization with that
error; a missing `layer` key defaults to `0`. -/
def normNode (n : RawNode) : Except String NNode :=
  match (match n.layerK with | none => Except.ok 0 | some v => pyInt v) with
  | Except.error m => Except.error m
  | Except.ok L =>
    Except.ok
      { id := pyOrS n.idK n.IDK
        name := pyOrS n.nameK (pyOrS n.NameK n.idK)
        layer := L
        kind := n.kindK.getD "unknown" }

/-- Normalization of one edge record inside `load_graph`. -/
def normEdge (e : RawEdge) : NEdge :=
  { id := e.idK
    source := e.sourceK
    target := e.targetK
    type := e.typeK.getD "depends_on" }

/-- The node-normalization loop of `load_graph`: the first raised exception
aborts the whole loop, as in Python. -/
def normNodes : List RawNode → Except String (List NNode)
  | [] => Except.ok []
  | r :: rest =>
    match normNode r with
    | Except.error m => Except.error m
    | Except.ok nn =>
      match normNodes rest with
      | Except.error m => Except.error m
      | Except.ok rest2 => Except.ok (nn :: rest2)

/-- `load_graph`, from the point where the raw `nodes`/`edges` arrays have
been extracted from the JSON document: produces the normalized node and
edge lists, or propagates the first normalization error. -/
def load_graph (rawNodes : List RawNode) (rawEdges : List RawEdge) :
    Except String (List NNode × List NEdge) :=
  match normNodes rawNodes with
  | Except.error m => Except.error m
  | Except.ok ns => Except.ok (ns, rawEdges.map normEdge)

/-- Python's `<` on lists of characters (code points), as used by `sorted`
on strings: lexicographic, with a proper prefix smaller than the longer
list. `charListLe as bs` decides `as ≤ bs` in that order. -/
def charListLe : List Char → List Char → Bool
  | [], _ => true
  | _ :: _, [] => false
  | a :: as, b :: bs => if a < b then true else if b < a then false else charListLe as bs

/-- Python's string order (lexicographic on code points), as a relation on
`String`. -/
def strLe (a b : String) : Prop := charListLe a.data b.data = true

instance strLeDec : DecidableRel strLe := fun _ _ => instDecidableEqBool _ _

/-- The input a layout step needs from one node dict: its `id` and `layer`
fields. (`layered_layout` reads nothing else.) -/
structure LNode where
  id : String
  layer : Int
deriving DecidableEq, Repr

/-- `xgap` of `layered_layout` (the Python literal 2.2, exact here). -/
def xgap : ℚ := 2.2

/-- `ygap` of `layered_layout` (the Python literal 2.2, exact here). -/
def ygap : ℚ := 2.2

/-- `sorted(layers.keys())`: the distinct layer values present among the
nodes, in ascending order. -/
def layerKeys (nodes : List LNode) : List Int :=
  List.insertionSort (fun a b => a ≤ b) (nodes.map LNode.layer).dedup

/-- `sorted(layers[layer])`: the ids of the nodes in one layer, sorted in
Python's string order. -/
def layerIdsSorted (nodes : List LNode) (L : Int) : List String :=
  @List.insertionSort String strLe strLeDec
    ((nodes.filter (fun nd => nd.layer == L)).map LNode.id)

/-- The position assigned by `layered_layout` to the entry at (0-based)
index `i` of a layer of `n` sorted ids:
`x = (i - (n - 1) / 2.0) * xgap`, `y = -layer * ygap`. -/
def posOf (L : Int) (n : Nat) (p : Nat × String) : String × ℚ × ℚ :=
  (p.2, ((p.1 : ℚ) - ((n : ℚ) - 1) / 2) * xgap, (-(L : ℚ)) * ygap)

/-- One layer's block of `pos` assignments, in enumeration order. -/
def layerPositions (nodes : List LNode) (L : Int) : List (String × ℚ × ℚ) :=
  (layerIdsSorted nodes L).enum.map (posOf L (layerIdsSorted nodes L).length)

/-- `layered_layout`: the `pos` dict as the list of its assignments in
insertion order (layers ascending, ids sorted within a layer). A duplicate
id assigned twice keeps the later assignment, via `posLookup`. -/
def layered_layout (nodes : List LNode) : List (String × ℚ × ℚ) :=
  (layerKeys nodes).flatMap (fun L => layerPositions nodes L)

/-- Reading `pos[nid]`: the value of the last assignment to that key
(Python dict writes overwrite). -/
def posLookup (pos : List (String × ℚ × ℚ)) (k : String) : Option (ℚ × ℚ) :=
  (pos.reverse.find? (fun p => p.1 == k)).map (fun p => p.2)

/-- In-place update of an association list: replace the value at the key if
present (keeping its position), else append — the write semantics of a
Python dict. -/
def updateAssoc {κ β : Type} [DecidableEq κ] : List (κ × β) → κ → β → List (κ × β)
  | [], k, v => [(k, v)]
  | (k', v') :: rest, k, v =>
    if k' = k then (k, v) :: rest else (k', v') :: updateAssoc rest k v

/-- The node dict of a built `networkx.DiGraph` together with its edge
dict: keys in insertion order with their attribute records. -/
structure BGraph where
  nodes : List (String × NNode)
  edges : List ((String × String) × NEdge)
deriving DecidableEq, Repr

/-- The keys of the node dict (`G.nodes`). -/
def keysOf (ns : List (String × NNode)) : List String := ns.map Prod.fst

/-- The node loop of `build_graph`: `G.add_node(n["id"], **n)` for each
node. Modelled from networkx's documented `add_node`, which raises
`ValueError("None cannot be a node")` when the key is `None`; an existing
key has its attributes overwritten. -/
def addNodes : List (String × NNode) → List NNode → Except String (List (String × NNode))
  | acc, [] => Except.ok acc
  | acc, n :: rest =>
    match n.id with
    | none => Except.error "None cannot be a node"
    | some k => addNodes (updateAssoc acc k n) rest

/-- One step of the edge loop of `build_graph`: the edge is added only when
both endpoint ids are keys of the node dict; otherwise it is skipped. -/
def addEdgeStep (ks : List String) (acc : List ((String × String) × NEdge)) (e : NEdge) :
    List ((String × String) × NEdge) :=
  match e.source, e.target with
  | some s, some t => if s ∈ ks ∧ t ∈ ks then updateAssoc acc (s, t) e else acc
  | _, _ => acc

/-- The edge loop of `build_graph`. -/
def addEdges (ks : List String) : List ((String × String) × NEdge) → List NEdge →
    List ((String × String) × NEdge)
  | acc, [] => acc
  | acc, e :: rest => addEdges ks (addEdgeStep ks acc e) rest

/-- `build_graph(nodes, edges)`: all nodes are added first (which can raise
on a `None` id), then every edge whose endpoints are both present. -/
def build_graph (nodes : List NNode) (edges : List NEdge) : Except String BGraph :=
  match addNodes [] nodes with
  | Except.error m => Except.error m
  | Except.ok ns => Except.ok { nodes := ns, edges := addEdges (keysOf ns) [] edges }

/-- The `(id, layer)` view of one node-dict entry, as `draw_graph` passes
`[G.nodes[n] for n in G.nodes]` into `layered_layout` (the stored `id`
attribute always equals the dict key). -/
def lnodeOfEntry (p : String × NNode) : LNode := ⟨p.1, p.2.layer⟩

/-- The `pos` mapping computed inside `draw_graph` for a built graph. -/
def drawPos (g : BGraph) : List (String × ℚ × ℚ) :=
  layered_layout (g.nodes.map lnodeOfEntry)

/-- A matplotlib line style: either a named style string or an
`(offset, on-off-pattern)` dash tuple. -/
inductive LineStyle where
  | named (s : String) : LineStyle
  | dashTuple (offset : Nat) (pattern : List Nat) : LineStyle
deriving DecidableEq, Repr

/-- The `style_map` literal of `draw_graph`. -/
def style_map : List (String × LineStyle) :=
  [("depends_on", LineStyle.named "solid"),
   ("invokes", LineStyle.named "solid"),
   ("exchanges", LineStyle.dashTuple 0 [4, 2]),
   ("persists", LineStyle.dashTuple 0 [2, 2]),
   ("configures", LineStyle.dashTuple 0 [6, 1, 1, 1]),
   ("observes", LineStyle.dashTuple 0 [1, 1]),
   ("contains", LineStyle.named "solid")]

/-- `style_map.get(et, "solid")`: the style drawn for an edge type. -/
def edge_style (et : String) : LineStyle :=
  ((style_map.find? (fun p => p.1 == et)).map (fun p => p.2)).getD (LineStyle.named "solid")

/-- `nattr.get("name") or nattr.get("id") or ""`: the label text picked by
`_short_label` before truncation. -/
def rawLabel (n : NNode) : String :=
  (pyOrS n.name (pyOrS n.id (some ""))).getD ""

/-- Python string slicing `s[:n]`: the first `n` code points of `s`. -/
def strTake (s : String) (n : Nat) : String := String.mk (s.data.take n)

/-- `_short_label(nattr)`: the rendered node label, truncated to the first
23 characters plus one ellipsis character when longer than 26. -/
def _short_label (n : NNode) : String :=
  let label := rawLabel n
  if label.length > 26 then strTake label 23 ++ "…" else label

/-- The externally observable outcome of one run of `main`:
`exitNoImage` models `sys.exit(2)` after printing to stderr (no image file
is written on this path); `savedImage` models a successful `draw_graph`
plus the summary line with `len(nodes)` and `len(edges)`; `uncaughtError`
models an uncaught exception (nonzero interpreter exit, no summary). -/
inductive RunOutcome where
  | exitNoImage (stderrMsg : String) (exitCode : Nat) : RunOutcome
  | savedImage (nodeCount edgeCount : Nat) : RunOutcome
  | uncaughtError (msg : String) : RunOutcome
deriving DecidableEq, Repr

/-- The control flow of `main` after argument parsing: load, test
`if not nodes or not edges`, build, draw, summarize. The emptiness test
runs on the normalized lists, before `build_graph` filters dangling
edges. -/
def main_run (rawNodes : List RawNode) (rawEdges : List RawEdge) : RunOutcome :=
  match load_graph rawNodes rawEdges with
  | Except.error m => RunOutcome.uncaughtError m
  | Except.ok (nodes, edges) =>
    if nodes = [] ∨ edges = [] then
      RunOutcome.exitNoImage "No nodes or edges found in input JSON." 2
    else
      match build_graph nodes edges with
      | Except.error m => RunOutcome.uncaughtError m
      | Except.ok _ => RunOutcome.savedImage nodes.length edges.length

/-!
The exact-rational `posOf` above reproduces the program's coordinate
formula verbatim. For the strict layer-ordering property, the rounding of
the actual IEEE-754 binary64 evaluation of `-layer * ygap` matters:
distinct layers at `2^53` and beyond convert to the same double. The
conversion and the product rounding are therefore modelled below.
-/

/-- Exponent search for the binary64 conversion: the number of halvings
needed to bring `m` strictly below `2^53`. The fuel 1100 exceeds the
binary64 exponent range, so it is never exhausted for values a double can
hold. -/
def b64ScaleAux : Nat → Nat → Nat
  | 0, _ => 0
  | fuel + 1, m => if m < 2 ^ 53 then 0 else b64ScaleAux fuel (m / 2) + 1

/-- The ulp exponent of the integer `m` in binary64: `0` below `2^53`,
else the number of low bits dropped by the conversion. -/
def b64Scale (m : Nat) : Nat := b64ScaleAux 1100 m

/-- Modelled from IEEE-754 binary64: conversion of a Python int to a
double, rounding to 53 significant bits with ties to even. Exact for
`|L| ≤ 2^53` (the result is always an integer, since the grid spacing is
at least 1 wherever rounding occurs). Overflow past `2^1024`, where
CPython raises `OverflowError`, is not modelled. -/
def floatOfInt (L : Int) : Int :=
  let n := L.natAbs
  let k := b64Scale n
  if k = 0 then L
  else
    let q := n / 2 ^ k
    let r := n % 2 ^ k
    let half := 2 ^ (k - 1)
    let q2 :=
      if r < half then q
      else if half < r then q + 1
      else if q % 2 = 0 then q else q + 1
    L.sign * ((q2 * 2 ^ k : Nat) : Int)

/-- Modelled from IEEE-754 binary64: the double value of the Python float
literal `2.2`, the nearest double to 11/5. -/
def ygapB64 : ℚ := 4953959590107546 / 2 ^ 51

/-- Round a rational to the nearest integer, ties to even. -/
def roundEven (m : ℚ) : Int :=
  if m - ⌊m⌋ < 1 / 2 then ⌊m⌋
  else if 1 / 2 < m - ⌊m⌋ then ⌊m⌋ + 1
  else if ⌊m⌋ % 2 = 0 then ⌊m⌋ else ⌊m⌋ + 1

/-- Modelled from IEEE-754 binary64 round-to-nearest-even on the normal
range: round `x` onto the grid of spacing `2^(e - 52)`, where
`2^e ≤ |x| < 2^(e+1)`. Overflow and subnormals are not modelled; they
cannot arise from the products considered here. -/
def roundB64 (x : ℚ) : ℚ :=
  if x = 0 then 0
  else (roundEven (x / 2 ^ (Int.log 2 |x| - 52)) : ℚ) * 2 ^ (Int.log 2 |x| - 52)

/-- Modelled from IEEE-754 binary64 and CPython semantics: the
y-coordinate `-layer * ygap` as the program computes it — the integer
`-layer` is converted to a double, multiplied by the double value of 2.2,
and the product is rounded to nearest-even. -/
def yFloat (L : Int) : ℚ := roundB64 ((floatOfInt (-L) : ℚ) * ygapB64)

/-! Concrete inputs used by witnesses and counterexamples. -/

/-- Two nodes in layer 0 whose ids are out of order in the input. -/
def nodesW1 : List LNode := [⟨"b", 0⟩, ⟨"a", 0⟩]

/-- Nodes on two layers, for the layer-ordering witness. -/
def nodesW7 : List LNode := [⟨"a", 0⟩, ⟨"c", 1⟩]

/-- A raw node carrying only an `id` key. -/
def rawNodeA : RawNode := ⟨some "a", none, none, none, none, none⟩

/-- A raw edge from `a` to a nonexistent `b`. -/
def rawEdgeAB : RawEdge := ⟨none, some "a", some "b", none⟩

/-- The normalized form of `rawNodeA`. -/
def nodeA : NNode := ⟨some "a", some "a", 0, "unknown"⟩

/-- The normalized form of `rawEdgeAB`. -/
def edgeAB : NEdge := ⟨none, some "a", some "b", "depends_on"⟩

/-- A second normalized node `c`, and a valid edge `a → c`, for the
dangling-edge scenario. -/
def nodeC : NNode := ⟨some "c", some "c", 0, "unknown"⟩

/-- A valid edge between the two present nodes `a` and `c`. -/
def edgeAC : NEdge := ⟨none, some "a", some "c", "depends_on"⟩

/-- A raw node whose identifier arrives only through the `ID` key variant
and which has no name keys. -/
def rawC9 : RawNode := ⟨none, some "x", none, none, none, none⟩

/-- The normalized form of `rawC9`: the identifier was resolved from the
`ID` key, but the name fallback read only the `id` key and stayed empty. -/
def nnC9 : NNode := ⟨some "x", none, 0, "unknown"⟩

/-- The node dict obtained from adding `nodeA` then `nodeC`. -/
def nsAC : List (String × NNode) := [("a", nodeA), ("c", nodeC)]

/-- A raw node with neither an `id` nor an `ID` key. -/
def rawC10 : RawNode := ⟨none, none, some "orphan", none, none, none⟩

/-- The normalized form of `rawC10`: its identifier is `none`. -/
def nnC10 : NNode := ⟨none, some "orphan", 0, "unknown"⟩

/-- A raw node whose `layer` is the non-numeric string `"abc"`. -/
def rawC8bad : RawNode := ⟨some "n1", none, none, none, some (JVal.jstr "abc"), none⟩

/-- A raw node without a `layer` key. -/
def rawC8none : RawNode := ⟨some "n2", none, none, none, none, none⟩

/-- A normalized node with a 30-character name, for the truncation
witness. -/
def nodeLong : NNode := ⟨some "n", some "abcdefghijklmnopqrstuvwxyz0123", 0, "unknown"⟩

/-! ### Properties of the embedded string order -/

theorem charListLe_total : ∀ as bs : List Char,
    charListLe as bs = true ∨ charListLe bs as = true := by
  intro as
  induction as with
  | nil => intro bs; left; rfl
  | cons a as ih =>
    intro bs
    cases bs with
    | nil => right; rfl
    | cons b bs =>
      rcases lt_trichotomy a b with h | h | h
      · left; simp only [charListLe]; rw [if_pos h]
      · subst h
        rcases ih bs with h2 | h2
        · left; simp only [charListLe]
          rw [if_neg (lt_irrefl a), if_neg (lt_irrefl a)]; exact h2
        · right; simp only [charListLe]
          rw [if_neg (lt_irrefl a), if_neg (lt_irrefl a)]; exact h2
      · right; simp only [charListLe]; rw [if_pos h]

theorem charListLe_trans : ∀ as bs cs : List Char,
    charListLe as bs = true → charListLe bs cs = true → charListLe as cs = true := by
  intro as
  induction as with
  | nil => intro bs cs _ _; rfl
  | cons a as ih =>
    intro bs cs h1 h2
    cases bs with
    | nil => simp [charListLe] at h1
    | cons b bs =>
      cases cs with
      | nil => simp [charListLe] at h2
      | cons c cs =>
        simp only [charListLe] at h1 h2 ⊢
        rcases lt_trichotomy a b with hab | hab | hab
        · rcases lt_trichotomy b c with hbc | hbc | hbc
          · rw [if_pos (lt_trans hab hbc)]
          · subst hbc; rw [if_pos hab]
          · rw [if_neg (not_lt_of_gt hbc), if_pos hbc] at h2
            exact absurd h2 (by simp)
        · subst hab
          rw [if_neg (lt_irrefl a), if_neg (lt_irrefl a)] at h1
          rcases lt_trichotomy a c with hac | hac | hac
          · rw [if_pos hac]
          · subst hac
            rw [if_neg (lt_irrefl a), if_neg (lt_irrefl a)] at h2 ⊢
            exact ih bs cs h1 h2
          · rw [if_neg (not_lt_of_gt hac), if_pos hac] at h2
            exact absurd h2 (by simp)
        · rw [if_neg (not_lt_of_gt hab), if_pos hab] at h1
          exact absurd h1 (by simp)

theorem charListLe_antisymm : ∀ as bs : List Char,
    charListLe as bs = true → charListLe bs as = true → as = bs := by
  intro as
  induction as with
  | nil =>
    intro bs _ h2
    cases bs with
    | nil => rfl
    | cons b bs => simp [charListLe] at h2
  | cons a as ih =>
    intro bs h1 h2
    cases bs with
    | nil => simp [charListLe] at h1
    | cons b bs =>
      simp only [charListLe] at h1 h2
      rcases lt_trichotomy a b with hab | hab | hab
      · rw [if_neg (not_lt_of_gt hab), if_pos hab] at h2
        exact absurd h2 (by simp)
      · subst hab
        rw [if_neg (lt_irrefl a), if_neg (lt_irrefl a)] at h1 h2
        rw [ih bs h1 h2]
      · rw [if_neg (not_lt_of_gt hab), if_pos hab] at h1
        exact absurd h1 (by simp)

theorem strLe_total (a b : String) : strLe a b ∨ strLe b a :=
  charListLe_total a.data b.data

theorem strLe_trans2 {a b c : String} (h1 : strLe a b) (h2 : strLe b c) : strLe a c :=
  charListLe_trans a.data b.data c.data h1 h2

theorem strLe_antisymm2 {a b : String} (h1 : strLe a b) (h2 : strLe b a) : a = b :=
  String.ext (charListLe_antisymm a.data b.data h1 h2)

/-! ### Structure of the layered layout -/

theorem layerIdsSorted_sorted (nodes : List LNode) (L : Int) :
    List.Sorted strLe (layerIdsSorted nodes L) :=
  @List.sorted_insertionSort String strLe strLeDec ⟨strLe_total⟩
    ⟨fun _ _ _ => strLe_trans2⟩ _

theorem layerIdsSorted_perm (nodes : List LNode) (L : Int) :
    (layerIdsSorted nodes L).Perm ((nodes.filter (fun nd => nd.layer == L)).map LNode.id) :=
  @List.perm_insertionSort String strLe strLeDec _

theorem mem_layerIdsSorted {nodes : List LNode} {L : Int} {s : String} :
    s ∈ layerIdsSorted nodes L ↔ ∃ nd, nd ∈ nodes ∧ nd.id = s ∧ nd.layer = L := by
  rw [(layerIdsSorted_perm nodes L).mem_iff]
  simp only [List.mem_map, List.mem_filter, beq_iff_eq]
  constructor
  · rintro ⟨nd, ⟨hmem, hlay⟩, hid⟩; exact ⟨nd, hmem, hid, hlay⟩
  · rintro ⟨nd, hmem, hid, hlay⟩; exact ⟨nd, ⟨hmem, hlay⟩, hid⟩

theorem layerIdsSorted_nodup {nodes : List LNode} (hnd : (nodes.map LNode.id).Nodup)
    (L : Int) : (layerIdsSorted nodes L).Nodup := by
  have hsub : ((nodes.filter (fun nd => nd.layer == L)).map LNode.id).Sublist
      (nodes.map LNode.id) := (List.filter_sublist nodes).map LNode.id
  exact ((layerIdsSorted_perm nodes L).nodup_iff).mpr (List.Nodup.sublist hsub hnd)

theorem layerKeys_sorted (nodes : List LNode) :
    List.Sorted (fun a b : Int => a ≤ b) (layerKeys nodes) :=
  List.sorted_insertionSort _ _

theorem layerKeys_perm (nodes : List LNode) :
    (layerKeys nodes).Perm (nodes.map LNode.layer).dedup :=
  List.perm_insertionSort _ _

theorem mem_layerKeys {nodes : List LNode} {L : Int} :
    L ∈ layerKeys nodes ↔ ∃ nd, nd ∈ nodes ∧ nd.layer = L := by
  rw [(layerKeys_perm nodes).mem_iff, List.mem_dedup, List.mem_map]

theorem layerKeys_nodup (nodes : List LNode) : (layerKeys nodes).Nodup :=
  ((layerKeys_perm nodes).nodup_iff).mpr (List.nodup_dedup _)

theorem layered_layout_keys (nodes : List LNode) :
    (layered_layout nodes).map Prod.fst
      = (layerKeys nodes).flatMap (fun L => layerIdsSorted nodes L) := by
  unfold layered_layout
  rw [List.map_flatMap]
  congr 1
  funext L
  unfold layerPositions
  rw [List.map_map]
  have hcomp : (Prod.fst ∘ posOf L (layerIdsSorted nodes L).length)
      = (Prod.snd : Nat × String → String) := by
    funext p; rfl
  rw [hcomp, List.enum_map_snd]

theorem layered_layout_keys_nodup {nodes : List LNode}
    (hnd : (nodes.map LNode.id).Nodup) :
    ((layered_layout nodes).map Prod.fst).Nodup := by
  rw [layered_layout_keys, List.nodup_flatMap]
  refine ⟨fun L _ => layerIdsSorted_nodup hnd L, ?_⟩
  refine (layerKeys_nodup nodes).imp ?_
  intro L1 L2 hne s hs1 hs2
  rcases mem_layerIdsSorted.mp hs1 with ⟨n1, hm1, hid1, hl1⟩
  rcases mem_layerIdsSorted.mp hs2 with ⟨n2, hm2, hid2, hl2⟩
  have heq : n1 = n2 :=
    List.inj_on_of_nodup_map hnd hm1 hm2 (by rw [hid1, hid2])
  exact hne (by rw [← hl1, heq, hl2])

/-! ### Dict lookup on association lists -/

theorem find_eq_of_nodup_keys {β : Type} : ∀ (l : List (String × β)) (k : String) (v : β),
    (l.map Prod.fst).Nodup → (k, v) ∈ l → l.find? (fun p => p.1 == k) = some (k, v) := by
  intro l
  induction l with
  | nil => intro k v _ hm; simp at hm
  | cons hd tl ih =>
    intro k v hnd hm
    obtain ⟨k', v'⟩ := hd
    rw [List.map_cons, List.nodup_cons] at hnd
    by_cases hk : k' = k
    · subst hk
      have hhd : ((k', v) : String × β) = (k', v') := by
        rcases List.mem_cons.mp hm with h | h
        · exact h
        · exact absurd (List.mem_map.mpr ⟨(k', v), h, rfl⟩) hnd.1
      rw [List.find?_cons_of_pos _ (by simp)]
      exact congrArg some hhd.symm
    · have hmem : (k, v) ∈ tl := by
        rcases List.mem_cons.mp hm with h | h
        · exact absurd (congrArg Prod.fst h).symm hk
        · exact h
      rw [List.find?_cons_of_neg _ (by simpa using hk)]
      exact ih k v hnd.2 hmem

theorem posLookup_eq_of_mem {pos : List (String × ℚ × ℚ)} {k : String} {v : ℚ × ℚ}
    (hnd : (pos.map Prod.fst).Nodup) (hm : (k, v) ∈ pos) :
    posLookup pos k = some v := by
  unfold posLookup
  have hnd2 : (pos.reverse.map Prod.fst).Nodup := by
    rw [List.map_reverse]
    exact (List.nodup_reverse).mpr hnd
  rw [find_eq_of_nodup_keys pos.reverse k v hnd2 (List.mem_reverse.mpr hm)]
  rfl

/-! ### The position assigned to each node -/

theorem entry_mem_layerPositions {nodes : List LNode} {L : Int} {i : Nat}
    (h : i < (layerIdsSorted nodes L).length) :
    ((layerIdsSorted nodes L).get ⟨i, h⟩,
      (((i : ℚ) - (((layerIdsSorted nodes L).length : ℚ) - 1) / 2) * xgap,
        (-(L : ℚ)) * ygap)) ∈ layerPositions nodes L := by
  unfold layerPositions
  have h2 : i < (layerIdsSorted nodes L).enum.length := by
    rw [List.enum_length]; exact h
  have e1 : (layerIdsSorted nodes L).enum[i] = (i, (layerIdsSorted nodes L)[i]) :=
    List.getElem_enum _ _ _
  have hmem : ((i, (layerIdsSorted nodes L).get ⟨i, h⟩) : Nat × String)
      ∈ (layerIdsSorted nodes L).enum := by
    have hx := List.getElem_mem h2
    rw [e1] at hx
    simpa using hx
  exact List.mem_map.mpr ⟨_, hmem, rfl⟩

theorem entry_mem_layered_layout {nodes : List LNode} {L : Int} {i : Nat}
    (h : i < (layerIdsSorted nodes L).length) :
    ((layerIdsSorted nodes L).get ⟨i, h⟩,
      (((i : ℚ) - (((layerIdsSorted nodes L).length : ℚ) - 1) / 2) * xgap,
        (-(L : ℚ)) * ygap)) ∈ layered_layout nodes := by
  unfold layered_layout
  refine List.mem_flatMap.mpr ⟨L, ?_, entry_mem_layerPositions h⟩
  have hid : (layerIdsSorted nodes L).get ⟨i, h⟩ ∈ layerIdsSorted nodes L :=
    List.get_mem _ _ _
  rcases mem_layerIdsSorted.mp hid with ⟨nd, hmem, _, hlay⟩
  exact mem_layerKeys.mpr ⟨nd, hmem, hlay⟩

theorem posLookup_layered_layout {nodes : List LNode}
    (hnd : (nodes.map LNode.id).Nodup) {L : Int} {i : Nat}
    (h : i < (layerIdsSorted nodes L).length) :
    posLookup (layered_layout nodes) ((layerIdsSorted nodes L).get ⟨i, h⟩)
      = some ((((i : ℚ) - (((layerIdsSorted nodes L).length : ℚ) - 1) / 2) * xgap,
          (-(L : ℚ)) * ygap)) :=
  posLookup_eq_of_mem (layered_layout_keys_nodup hnd) (entry_mem_layered_layout h)

theorem posLookup_of_node {nodes : List LNode} (hnd : (nodes.map LNode.id).Nodup)
    {a : LNode} (ha : a ∈ nodes) :
    ∃ x : ℚ, posLookup (layered_layout nodes) a.id = some (x, (-(a.layer : ℚ)) * ygap) := by
  have hmem : a.id ∈ layerIdsSorted nodes a.layer :=
    mem_layerIdsSorted.mpr ⟨a, ha, rfl, rfl⟩
  rcases List.mem_iff_get.mp hmem with ⟨⟨i, hi⟩, hget⟩
  have hpos := posLookup_layered_layout hnd hi
  rw [hget] at hpos
  exact ⟨_, hpos⟩

/-! ### The layout is a function of the multiset of (id, layer) pairs -/

theorem layerKeys_perm_inv {l1 l2 : List LNode} (hp : l1.Perm l2) :
    layerKeys l1 = layerKeys l2 :=
  List.eq_of_perm_of_sorted
    (((layerKeys_perm l1).trans ((hp.map LNode.layer).dedup)).trans (layerKeys_perm l2).symm)
    (layerKeys_sorted l1) (layerKeys_sorted l2)

theorem layerIdsSorted_perm_inv {l1 l2 : List LNode} (hp : l1.Perm l2) (L : Int) :
    layerIdsSorted l1 L = layerIdsSorted l2 L :=
  @List.eq_of_perm_of_sorted String strLe ⟨fun _ _ => strLe_antisymm2⟩ _ _
    (((layerIdsSorted_perm l1 L).trans
        ((hp.filter (fun nd => nd.layer == L)).map LNode.id)).trans
      (layerIdsSorted_perm l2 L).symm)
    (layerIdsSorted_sorted l1 L) (layerIdsSorted_sorted l2 L)

theorem layered_layout_perm_inv {l1 l2 : List LNode} (hp : l1.Perm l2) :
    layered_layout l1 = layered_layout l2 := by
  unfold layered_layout
  rw [layerKeys_perm_inv hp]
  have hfun : (fun L => layerPositions l1 L) = (fun L => layerPositions l2 L) := by
    funext L
    unfold layerPositions
    rw [layerIdsSorted_perm_inv hp L]
  rw [hfun]

/-! ### Structure of the built graph -/

theorem build_graph_nodes_eq {nodes : List NNode} {e : List NEdge} {g : BGraph}
    (h : build_graph nodes e = Except.ok g) :
    addNodes [] nodes = Except.ok g.nodes := by
  unfold build_graph at h
  cases haddN : addNodes [] nodes with
  | error m => rw [haddN] at h; exact absurd h (by simp)
  | ok ns =>
    rw [haddN] at h
    have hg := (Except.ok.injEq _ _).mp h
    rw [← hg]

theorem drawPos_eq_of_same_nodes {nodes : List NNode} {e1 e2 : List NEdge} {g1 g2 : BGraph}
    (h1 : build_graph nodes e1 = Except.ok g1) (h2 : build_graph nodes e2 = Except.ok g2) :
    drawPos g1 = drawPos g2 := by
  have hn1 := build_graph_nodes_eq h1
  have hn2 := build_graph_nodes_eq h2
  have hnodes : g1.nodes = g2.nodes := (Except.ok.injEq _ _).mp (hn1.symm.trans hn2)
  unfold drawPos
  rw [hnodes]

theorem mem_keys_updateAssoc {κ β : Type} [DecidableEq κ] :
    ∀ (l : List (κ × β)) (k : κ) (v : β) (a : κ),
      a ∈ (updateAssoc l k v).map Prod.fst ↔ a ∈ l.map Prod.fst ∨ a = k := by
  intro l
  induction l with
  | nil => intro k v a; simp [updateAssoc]
  | cons hd tl ih =>
    intro k v a
    obtain ⟨k', v'⟩ := hd
    by_cases hk : k' = k
    · subst hk
      have hupd : updateAssoc ((k', v') :: tl) k' v = (k', v) :: tl := by
        simp [updateAssoc]
      rw [hupd]
      simp only [List.map_cons, List.mem_cons]
      tauto
    · simp only [updateAssoc, if_neg hk, List.map_cons, List.mem_cons]
      rw [ih k v a]
      tauto

theorem mem_keys_addEdgeStep (ks : List String) (acc : List ((String × String) × NEdge))
    (e : NEdge) (s t : String) :
    (s, t) ∈ (addEdgeStep ks acc e).map Prod.fst ↔
      (s, t) ∈ acc.map Prod.fst ∨
        (e.source = some s ∧ e.target = some t ∧ s ∈ ks ∧ t ∈ ks) := by
  cases hs : e.source with
  | none => simp [addEdgeStep, hs]
  | some s2 =>
    cases ht : e.target with
    | none => simp [addEdgeStep, hs, ht]
    | some t2 =>
      have hstep : addEdgeStep ks acc e
          = if s2 ∈ ks ∧ t2 ∈ ks then updateAssoc acc (s2, t2) e else acc := by
        simp [addEdgeStep, hs, ht]
      rw [hstep]
      by_cases hin : s2 ∈ ks ∧ t2 ∈ ks
      · rw [if_pos hin, mem_keys_updateAssoc]
        constructor
        · rintro (h | h)
          · exact Or.inl h
          · injection h with e1 e2
            exact Or.inr ⟨by rw [e1], by rw [e2], by rw [e1]; exact hin.1,
              by rw [e2]; exact hin.2⟩
        · rintro (h | ⟨h1, h2, h3, h4⟩)
          · exact Or.inl h
          · right
            injection h1 with h1
            injection h2 with h2
            rw [h1, h2]
      · rw [if_neg hin]
        constructor
        · exact Or.inl
        · rintro (h | ⟨h1, h2, h3, h4⟩)
          · exact h
          · exfalso
            apply hin
            injection h1 with h1
            injection h2 with h2
            rw [h1, h2]
            exact ⟨h3, h4⟩

theorem mem_keys_addEdges (ks : List String) :
    ∀ (es : List NEdge) (acc : List ((String × String) × NEdge)) (s t : String),
      (s, t) ∈ (addEdges ks acc es).map Prod.fst ↔
        (s, t) ∈ acc.map Prod.fst ∨
          ∃ e, e ∈ es ∧ e.source = some s ∧ e.target = some t ∧ s ∈ ks ∧ t ∈ ks := by
  intro es
  induction es with
  | nil => intro acc s t; simp [addEdges]
  | cons e rest ih =>
    intro acc s t
    have hstep : addEdges ks acc (e :: rest) = addEdges ks (addEdgeStep ks acc e) rest := rfl
    rw [hstep, ih, mem_keys_addEdgeStep]
    constructor
    · rintro ((h | h) | ⟨e2, hm, he⟩)
      · exact Or.inl h
      · exact Or.inr ⟨e, List.mem_cons_self e rest, h⟩
      · exact Or.inr ⟨e2, List.mem_cons_of_mem _ hm, he⟩
    · rintro (h | ⟨e2, hm, he⟩)
      · exact Or.inl (Or.inl h)
      · rcases List.mem_cons.mp hm with heq | hm2
        · subst heq
          exact Or.inl (Or.inr he)
        · exact Or.inr ⟨e2, hm2, he⟩

theorem mem_keys_addNodes :
    ∀ (nodes : List NNode) (acc ns : List (String × NNode)) (k : String),
      addNodes acc nodes = Except.ok ns →
      (k ∈ keysOf ns ↔ k ∈ keysOf acc ∨ some k ∈ nodes.map NNode.id) := by
  intro nodes
  induction nodes with
  | nil =>
    intro acc ns k h
    have hacc : acc = ns := by simpa [addNodes] using h
    subst hacc
    simp
  | cons n rest ih =>
    intro acc ns k h
    cases hid : n.id with
    | none =>
      rw [show addNodes acc (n :: rest) = Except.error "None cannot be a node" from
        by simp [addNodes, hid]] at h
      exact absurd h (by simp)
    | some k2 =>
      have hrec : addNodes (updateAssoc acc k2 n) rest = Except.ok ns := by
        simpa [addNodes, hid] using h
      rw [ih _ _ k hrec]
      unfold keysOf
      rw [mem_keys_updateAssoc]
      simp only [List.map_cons, List.mem_cons, hid]
      constructor
      · rintro ((h1 | h1) | h1)
        · exact Or.inl h1
        · exact Or.inr (Or.inl (by rw [h1]))
        · exact Or.inr (Or.inr h1)
      · rintro (h1 | h1 | h1)
        · exact Or.inl (Or.inl h1)
        · exact Or.inl (Or.inr (Option.some.inj h1))
        · exact Or.inr h1

theorem addNodes_error_of_none :
    ∀ (nodes : List NNode) (acc : List (String × NNode)),
      (∃ n, n ∈ nodes ∧ n.id = none) →
      addNodes acc nodes = Except.error "None cannot be a node" := by
  intro nodes
  induction nodes with
  | nil => intro acc h; rcases h with ⟨n, hm, _⟩; simp at hm
  | cons n rest ih =>
    intro acc h
    cases hid : n.id with
    | none => simp [addNodes, hid]
    | some k =>
      rcases h with ⟨n2, hm, hn2⟩
      rcases List.mem_cons.mp hm with heq | hm2
      · subst heq
        rw [hid] at hn2
        exact absurd hn2 (by simp)
      · simpa [addNodes, hid] using ih (updateAssoc acc k n) ⟨n2, hm2, hn2⟩

theorem normNodes_error_of_mem :
    ∀ (nodes : List RawNode) (r : RawNode) (m : String),
      r ∈ nodes → normNode r = Except.error m →
      ∃ m2, normNodes nodes = Except.error m2 := by
  intro nodes
  induction nodes with
  | nil => intro r m hm _; simp at hm
  | cons r0 rest ih =>
    intro r m hm herr
    rcases List.mem_cons.mp hm with heq | hm2
    · subst heq
      exact ⟨m, by simp [normNodes, herr]⟩
    · cases h0 : normNode r0 with
      | error m0 => exact ⟨m0, by simp [normNodes, h0]⟩
      | ok nn =>
        rcases ih r m hm2 herr with ⟨m2, hrec⟩
        exact ⟨m2, by simp [normNodes, h0, hrec]⟩

/-! ### String lengths for the label truncation -/

theorem strTake_length (s : String) (n : Nat) : (strTake s n).length = min n s.length := by
  show (s.data.take n).length = min n s.data.length
  exact List.length_take ..

theorem strAppend_length (a b : String) : (a ++ b).length = a.length + b.length := by
  show (a.data ++ b.data).length = a.data.length + b.data.length
  exact List.length_append ..

/-! ### Rounding error bounds for the binary64 model -/

theorem b64ScaleAux_eq_zero (fuel m : Nat) (h : m < 2 ^ 53) :
    b64ScaleAux (fuel + 1) m = 0 := by
  show (if m < 2 ^ 53 then 0 else b64ScaleAux fuel (m / 2) + 1) = 0
  rw [if_pos h]

theorem b64Scale_eq_zero {m : Nat} (h : m < 2 ^ 53) : b64Scale m = 0 :=
  b64ScaleAux_eq_zero 1099 m h

theorem floatOfInt_eq_self {L : Int} (h : L.natAbs < 2 ^ 53) : floatOfInt L = L := by
  simp only [floatOfInt]
  rw [b64Scale_eq_zero h]
  simp

theorem roundEven_abs_le (m : ℚ) : |((roundEven m : ℚ)) - m| ≤ 1 / 2 := by
  have h1 := Int.floor_le m
  have h2 := Int.lt_floor_add_one m
  unfold roundEven
  split_ifs with hA hB hC <;> rw [abs_le] <;> constructor <;> push_cast <;> linarith

theorem roundB64_zero : roundB64 0 = 0 := by simp [roundB64]

theorem roundB64_abs_le {x : ℚ} (hx : x ≠ 0) :
    |roundB64 x - x| ≤ (2 : ℚ) ^ (Int.log 2 |x| - 53) := by
  unfold roundB64
  rw [if_neg hx]
  set g : ℚ := (2 : ℚ) ^ (Int.log 2 |x| - 52) with hg
  have hgpos : (0 : ℚ) < g := by rw [hg]; positivity
  have h1 : ∀ r : ℚ, |r * g - x| = |r - x / g| * g := by
    intro r
    conv_lhs => rw [show x = x / g * g from (div_mul_cancel₀ x (ne_of_gt hgpos)).symm]
    rw [← sub_mul, abs_mul, abs_of_pos hgpos]
  calc |(roundEven (x / g) : ℚ) * g - x|
      = |(roundEven (x / g) : ℚ) - x / g| * g := h1 _
    _ ≤ 1 / 2 * g :=
        mul_le_mul_of_nonneg_right (roundEven_abs_le _) (le_of_lt hgpos)
    _ = (2 : ℚ) ^ (Int.log 2 |x| - 53) := by
        rw [hg]
        rw [show Int.log 2 |x| - 53 = Int.log 2 |x| - 52 - 1 from by ring]
        rw [zpow_sub₀ (by norm_num : (2 : ℚ) ≠ 0) (Int.log 2 |x| - 52) 1, zpow_one]
        ring

theorem roundB64_close {x : ℚ} (hx : |x| < (2 : ℚ) ^ (53 : ℕ)) :
    |roundB64 x - x| ≤ 1 / 2 := by
  by_cases h0 : x = 0
  · subst h0
    simp [roundB64_zero]
  · refine le_trans (roundB64_abs_le h0) ?_
    have hxpos : 0 < |x| := abs_pos.mpr h0
    have hlog : Int.log 2 |x| < 53 :=
      (Int.lt_zpow_iff_log_lt (by norm_num) hxpos).mp (by exact_mod_cast hx)
    have hle : Int.log 2 |x| - 53 ≤ -1 := by omega
    calc (2 : ℚ) ^ (Int.log 2 |x| - 53) ≤ (2 : ℚ) ^ (-1 : ℤ) :=
        zpow_le_zpow_right₀ (by norm_num) hle
      _ = 1 / 2 := by norm_num

theorem absMul_ygapB64_lt {L : Int} (h : L.natAbs ≤ 2 ^ 51) :
    |((L : ℚ)) * ygapB64| < (2 : ℚ) ^ (53 : ℕ) := by
  rw [abs_mul, abs_of_pos (show (0 : ℚ) < ygapB64 by norm_num [ygapB64])]
  have hZ : (|L| : ℤ) ≤ 2 ^ 51 := by
    rw [Int.abs_eq_natAbs]
    exact_mod_cast h
  have h1 : |(L : ℚ)| ≤ (2 : ℚ) ^ (51 : ℕ) := by
    rw [← Int.cast_abs]
    exact_mod_cast hZ
  calc |(L : ℚ)| * ygapB64 ≤ (2 : ℚ) ^ (51 : ℕ) * ygapB64 :=
      mul_le_mul_of_nonneg_right h1 (by norm_num [ygapB64])
    _ < (2 : ℚ) ^ (51 : ℕ) * 4 :=
      mul_lt_mul_of_pos_left (by norm_num [ygapB64]) (by positivity)
    _ = (2 : ℚ) ^ (53 : ℕ) := by norm_num

/-! ### The claims -/

/-- C1: for every graph and every layer, `layered_layout` sorts the member
node ids lexicographically (Python string order) and assigns the i-th id
(zero-indexed) the coordinate `x = (i - (n - 1) / 2) * 2.2` and
`y = -L * 2.2`, where `n` is the layer size and `L` the layer value, with
the uniform gap constant 2.2 on both axes. Stated under the data-model
invariant that node ids are unique within a graph. -/
theorem C1_layer_positions (nodes : List LNode) (hnd : (nodes.map LNode.id).Nodup)
    (L : Int) (i : Nat) (h : i < (layerIdsSorted nodes L).length) :
    List.Sorted strLe (layerIdsSorted nodes L)
    ∧ (layerIdsSorted nodes L).Perm ((nodes.filter (fun nd => nd.layer == L)).map LNode.id)
    ∧ xgap = 2.2 ∧ ygap = 2.2
    ∧ posLookup (layered_layout nodes) ((layerIdsSorted nodes L).get ⟨i, h⟩)
        = some ((((i : ℚ) - (((layerIdsSorted nodes L).length : ℚ) - 1) / 2) * xgap,
            (-(L : ℚ)) * ygap)) :=
  ⟨layerIdsSorted_sorted nodes L, layerIdsSorted_perm nodes L, rfl, rfl,
    posLookup_layered_layout hnd h⟩

/-- Witness for C1 at the concrete graph `nodesW1` (ids "b", "a" in layer
0): the hypotheses hold, the sorted layer is `["a", "b"]`, and the first
sorted id "a" receives the instantiated coordinate formula. -/
theorem C1_witness :
    (nodesW1.map LNode.id).Nodup
    ∧ layerIdsSorted nodesW1 0 = ["a", "b"]
    ∧ (List.Sorted strLe (layerIdsSorted nodesW1 0)
       ∧ (layerIdsSorted nodesW1 0).Perm
           ((nodesW1.filter (fun nd => nd.layer == 0)).map LNode.id)
       ∧ xgap = 2.2 ∧ ygap = 2.2
       ∧ posLookup (layered_layout nodesW1) ((layerIdsSorted nodesW1 0).get ⟨0, by decide⟩)
           = some (((((0 : Nat) : ℚ) - (((layerIdsSorted nodesW1 0).length : ℚ) - 1) / 2)
                 * xgap,
               (-((0 : Int) : ℚ)) * ygap))) :=
  ⟨by decide, by decide, C1_layer_positions nodesW1 (by decide) 0 0 (by decide)⟩

/-- C6: `layered_layout` is a deterministic function of the multiset of
`(id, layer)` pairs only — it is invariant under permutation of its input
(and trivially bit-identical across runs, being a pure function) — and the
positions computed in `draw_graph` for two built graphs with the same nodes
but different edge lists coincide: the layout consumes no edge
information. -/
theorem C6_layout_edge_independent (ln1 ln2 : List LNode) (hp : ln1.Perm ln2)
    (nodes : List NNode) (e1 e2 : List NEdge) (g1 g2 : BGraph)
    (h1 : build_graph nodes e1 = Except.ok g1) (h2 : build_graph nodes e2 = Except.ok g2) :
    layered_layout ln1 = layered_layout ln2 ∧ drawPos g1 = drawPos g2 :=
  ⟨layered_layout_perm_inv hp, drawPos_eq_of_same_nodes h1 h2⟩

/-- Witness for C6: a concrete permutation of two layout nodes, and the
same single-node graph built once with no edges and once with a dangling
edge. -/
theorem C6_witness :
    ([⟨"a", 0⟩, ⟨"c", 1⟩] : List LNode).Perm [⟨"c", 1⟩, ⟨"a", 0⟩]
    ∧ build_graph [nodeA] [] = Except.ok { nodes := [("a", nodeA)], edges := [] }
    ∧ build_graph [nodeA] [edgeAB] = Except.ok { nodes := [("a", nodeA)], edges := [] }
    ∧ (layered_layout [⟨"a", 0⟩, ⟨"c", 1⟩] = layered_layout [⟨"c", 1⟩, ⟨"a", 0⟩]
       ∧ drawPos { nodes := [("a", nodeA)], edges := [] }
           = drawPos { nodes := [("a", nodeA)], edges := [] }) :=
  ⟨by decide, rfl, rfl,
    C6_layout_edge_independent [⟨"a", 0⟩, ⟨"c", 1⟩] [⟨"c", 1⟩, ⟨"a", 0⟩] (by decide)
      [nodeA] [] [edgeAB] _ _ rfl rfl⟩

/-- C7 counterexample: the binary64 conversion (round-half-to-even)
collapses the distinct layers `2^53` and `2^53 + 1` to the same double, so
the y-coordinates the program computes for them are equal, not strictly
ordered — the claim's strict inequality over all layer pairs fails at this
input. -/
theorem C7_cex :
    ((2 : Int) ^ 53 + 1 ≠ 2 ^ 53)
    ∧ floatOfInt (-((2 : Int) ^ 53 + 1)) = floatOfInt (-((2 : Int) ^ 53))
    ∧ yFloat ((2 : Int) ^ 53 + 1) = yFloat ((2 : Int) ^ 53) :=
  ⟨by decide, by decide,
    congrArg (fun z : Int => roundB64 ((z : ℚ) * ygapB64)) (by decide)⟩

/-- C7 (amended): for layers of magnitude at most `2^51` — where the
binary64 conversion of the layer is exact and the product-rounding error
(at most half an ulp, hence at most 1/2 here) stays below the layer gap
2.2 — every node in a lower-numbered layer receives a strictly greater
y-coordinate than every node in a higher-numbered layer, both in the
IEEE binary64 evaluation of `-layer * ygap` (`yFloat`) and in the exact
value of the assigned formula; distinct layers at `2^53` and beyond can
collapse to equal y. Stated under unique node ids. -/
theorem C7_layer_y_order_b64 (nodes : List LNode) (hnd : (nodes.map LNode.id).Nodup)
    (a b : LNode) (ha : a ∈ nodes) (hb : b ∈ nodes) (hL : a.layer < b.layer)
    (hba : a.layer.natAbs ≤ 2 ^ 51) (hbb : b.layer.natAbs ≤ 2 ^ 51) :
    yFloat b.layer < yFloat a.layer
    ∧ ∃ pa pb : ℚ × ℚ,
        posLookup (layered_layout nodes) a.id = some pa
        ∧ posLookup (layered_layout nodes) b.id = some pb
        ∧ pb.2 < pa.2 := by
  constructor
  · have hk : (2 ^ 51 : ℕ) < 2 ^ 53 := by norm_num
    have hc1 : floatOfInt (-a.layer) = -a.layer :=
      floatOfInt_eq_self (by rw [Int.natAbs_neg]; exact lt_of_le_of_lt hba hk)
    have hc2 : floatOfInt (-b.layer) = -b.layer :=
      floatOfInt_eq_self (by rw [Int.natAbs_neg]; exact lt_of_le_of_lt hbb hk)
    unfold yFloat
    rw [hc1, hc2]
    have hmag1 : |((-a.layer : Int) : ℚ) * ygapB64| < (2 : ℚ) ^ (53 : ℕ) :=
      absMul_ygapB64_lt (by rw [Int.natAbs_neg]; exact hba)
    have hmag2 : |((-b.layer : Int) : ℚ) * ygapB64| < (2 : ℚ) ^ (53 : ℕ) :=
      absMul_ygapB64_lt (by rw [Int.natAbs_neg]; exact hbb)
    have he1 := roundB64_close hmag1
    have he2 := roundB64_close hmag2
    rw [abs_le] at he1 he2
    have hone : (1 : ℚ) ≤ (b.layer : ℚ) - (a.layer : ℚ) := by
      have h1 : a.layer + 1 ≤ b.layer := hL
      have h2 : ((a.layer : ℚ)) + 1 ≤ (b.layer : ℚ) := by exact_mod_cast h1
      linarith
    have hgap : (2 : ℚ) ≤ ((-a.layer : Int) : ℚ) * ygapB64
        - ((-b.layer : Int) : ℚ) * ygapB64 := by
      have hrew : ((-a.layer : Int) : ℚ) * ygapB64 - ((-b.layer : Int) : ℚ) * ygapB64
          = ((b.layer : ℚ) - (a.layer : ℚ)) * ygapB64 := by
        push_cast
        ring
      rw [hrew]
      calc (2 : ℚ) = 1 * 2 := by norm_num
        _ ≤ ((b.layer : ℚ) - (a.layer : ℚ)) * ygapB64 :=
            mul_le_mul hone (by norm_num [ygapB64]) (by norm_num) (by linarith)
    linarith [he1.1, he1.2, he2.1, he2.2, hgap]
  · rcases posLookup_of_node hnd ha with ⟨xa, hxa⟩
    rcases posLookup_of_node hnd hb with ⟨xb, hxb⟩
    refine ⟨_, _, hxa, hxb, ?_⟩
    show (-(b.layer : ℚ)) * ygap < (-(a.layer : ℚ)) * ygap
    have hcast : (a.layer : ℚ) < (b.layer : ℚ) := by exact_mod_cast hL
    have hy : (0 : ℚ) < ygap := by norm_num [ygap]
    exact mul_lt_mul_of_pos_right (neg_lt_neg hcast) hy

/-- Witness for C7 (amended) at the concrete graph `nodesW7` ("a" in layer
0, "c" in layer 1, both far below the `2^51` bound): node "a" ends up
strictly above node "c", in the float model and in the layout. -/
theorem C7_witness_b64 :
    (nodesW7.map LNode.id).Nodup
    ∧ (⟨"a", 0⟩ : LNode) ∈ nodesW7 ∧ (⟨"c", 1⟩ : LNode) ∈ nodesW7
    ∧ ((0 : Int) < 1)
    ∧ (0 : Int).natAbs ≤ 2 ^ 51 ∧ (1 : Int).natAbs ≤ 2 ^ 51
    ∧ (yFloat 1 < yFloat 0
       ∧ ∃ pa pb : ℚ × ℚ,
           posLookup (layered_layout nodesW7) "a" = some pa
           ∧ posLookup (layered_layout nodesW7) "c" = some pb
           ∧ pb.2 < pa.2) :=
  ⟨by decide, by decide, by decide, by decide, by decide, by decide,
    C7_layer_y_order_b64 nodesW7 (by decide) ⟨"a", 0⟩ ⟨"c", 1⟩ (by decide) (by decide)
      (by decide) (by decide) (by decide)⟩

/-- C2 counterexample: an input with one node and one dangling edge has
zero edges after dangling-edge filtering, yet `main` renders and saves an
image (reporting the pre-filter counts) instead of exiting with the
diagnostic status: the emptiness test in `main` runs on the normalized
lists before `build_graph` filters. -/
theorem C2_cex :
    load_graph [rawNodeA] [rawEdgeAB] = Except.ok ([nodeA], [edgeAB])
    ∧ build_graph [nodeA] [edgeAB] = Except.ok { nodes := [("a", nodeA)], edges := [] }
    ∧ ({ nodes := [("a", nodeA)], edges := [] } : BGraph).edges = []
    ∧ main_run [rawNodeA] [rawEdgeAB] = RunOutcome.savedImage 1 1 :=
  ⟨rfl, rfl, rfl, by decide⟩

/-- C2 (amended): if the normalized node list or the normalized edge list
is empty before dangling-edge filtering, the run exits with the distinct
status 2, prints the diagnostic to stderr, and never reaches the renderer
(no image file is created); an input whose edges are all dangling but
nonempty still renders an image. -/
theorem C2_empty_input_exit (rawNodes : List RawNode) (rawEdges : List RawEdge)
    (nodes : List NNode) (edges : List NEdge)
    (hload : load_graph rawNodes rawEdges = Except.ok (nodes, edges))
    (hempty : nodes = [] ∨ edges = []) :
    main_run rawNodes rawEdges
      = RunOutcome.exitNoImage "No nodes or edges found in input JSON." 2 := by
  simp only [main_run, hload]
  rw [if_pos hempty]

/-- Witness for C2 (amended) at the concrete input with no node records. -/
theorem C2_witness :
    load_graph [] [rawEdgeAB] = Except.ok ([], [edgeAB])
    ∧ (([] : List NNode) = [] ∨ [edgeAB] = [])
    ∧ main_run [] [rawEdgeAB]
        = RunOutcome.exitNoImage "No nodes or edges found in input JSON." 2 :=
  ⟨rfl, Or.inl rfl, C2_empty_input_exit [] [rawEdgeAB] [] [edgeAB] rfl (Or.inl rfl)⟩

/-- C3: given that the node dict built without error, `build_graph` always
succeeds regardless of the edge list; an edge pair is present in the built
graph iff some input edge carries exactly those endpoint ids and both are
keys of the node set; and the node keys are exactly the (non-`None`)
normalized node ids. Dropped edges raise no error. -/
theorem C3_edge_inclusion (nodes : List NNode) (edges : List NEdge)
    (ns : List (String × NNode)) (hok : addNodes [] nodes = Except.ok ns) :
    build_graph nodes edges
      = Except.ok { nodes := ns, edges := addEdges (keysOf ns) [] edges }
    ∧ (∀ s t : String,
        (s, t) ∈ (addEdges (keysOf ns) [] edges).map Prod.fst ↔
          ∃ e, e ∈ edges ∧ e.source = some s ∧ e.target = some t
            ∧ s ∈ keysOf ns ∧ t ∈ keysOf ns)
    ∧ (∀ k : String, k ∈ keysOf ns ↔ some k ∈ nodes.map NNode.id) := by
  refine ⟨by simp [build_graph, hok], fun s t => ?_, fun k => ?_⟩
  · rw [mem_keys_addEdges (keysOf ns) edges [] s t]
    simp
  · rw [mem_keys_addNodes nodes [] ns k hok]
    simp [keysOf]

/-- Witness for C3: the spec's scenario — one valid edge `a → c` and one
edge referencing a nonexistent target `b` — yields a graph with exactly
one edge, with no error raised. -/
theorem C3_witness :
    addNodes [] [nodeA, nodeC] = Except.ok nsAC
    ∧ (build_graph [nodeA, nodeC] [edgeAC, edgeAB]
        = Except.ok { nodes := nsAC, edges := addEdges (keysOf nsAC) [] [edgeAC, edgeAB] }
       ∧ (∀ s t : String,
            (s, t) ∈ (addEdges (keysOf nsAC) [] [edgeAC, edgeAB]).map Prod.fst ↔
              ∃ e, e ∈ [edgeAC, edgeAB] ∧ e.source = some s ∧ e.target = some t
                ∧ s ∈ keysOf nsAC ∧ t ∈ keysOf nsAC)
       ∧ (∀ k : String, k ∈ keysOf nsAC ↔ some k ∈ [nodeA, nodeC].map NNode.id))
    ∧ (addEdges (keysOf nsAC) [] [edgeAC, edgeAB]).map Prod.fst = [("a", "c")] :=
  ⟨rfl, C3_edge_inclusion [nodeA, nodeC] [edgeAC, edgeAB] nsAC rfl, by decide⟩

/-- C4 counterexample: the styles of the generic-dependency, invocation and
containment relation types are all the identical solid pattern, so the
seven required categories are not pairwise visually distinguishable. -/
theorem C4_cex :
    edge_style "invokes" = edge_style "depends_on"
    ∧ edge_style "contains" = edge_style "depends_on"
    ∧ edge_style "contains" = edge_style "invokes"
    ∧ ("invokes" : String) ≠ "depends_on"
    ∧ ("contains" : String) ≠ "depends_on"
    ∧ ("contains" : String) ≠ "invokes" := by
  refine ⟨rfl, rfl, rfl, by decide, by decide, by decide⟩

/-- C4 (amended): every edge type outside the fixed seven-entry lookup
falls back to a solid line; the lookup covers all seven required relation
categories, with four pairwise-distinct non-solid patterns for data
exchange, persistence, configuration and observation — but generic
dependency, invocation and containment all share the solid pattern, so
only five distinct patterns occur overall. -/
theorem C4_style_fallback (et : String)
    (h : et ∉ ["depends_on", "invokes", "exchanges", "persists", "configures",
      "observes", "contains"]) :
    edge_style et = LineStyle.named "solid"
    ∧ edge_style "depends_on" = LineStyle.named "solid"
    ∧ edge_style "invokes" = LineStyle.named "solid"
    ∧ edge_style "contains" = LineStyle.named "solid"
    ∧ edge_style "exchanges" = LineStyle.dashTuple 0 [4, 2]
    ∧ edge_style "persists" = LineStyle.dashTuple 0 [2, 2]
    ∧ edge_style "configures" = LineStyle.dashTuple 0 [6, 1, 1, 1]
    ∧ edge_style "observes" = LineStyle.dashTuple 0 [1, 1]
    ∧ List.Pairwise (fun a b => a ≠ b)
        [LineStyle.named "solid", LineStyle.dashTuple 0 [4, 2],
         LineStyle.dashTuple 0 [2, 2], LineStyle.dashTuple 0 [6, 1, 1, 1],
         LineStyle.dashTuple 0 [1, 1]] := by
  simp only [List.mem_cons, List.not_mem_nil, or_false, not_or] at h
  obtain ⟨h1, h2, h3, h4, h5, h6, h7⟩ := h
  refine ⟨?_, rfl, rfl, rfl, rfl, rfl, rfl, rfl, by decide⟩
  unfold edge_style style_map
  rw [List.find?_cons_of_neg _ (by simpa using fun hc => h1 hc.symm),
    List.find?_cons_of_neg _ (by simpa using fun hc => h2 hc.symm),
    List.find?_cons_of_neg _ (by simpa using fun hc => h3 hc.symm),
    List.find?_cons_of_neg _ (by simpa using fun hc => h4 hc.symm),
    List.find?_cons_of_neg _ (by simpa using fun hc => h5 hc.symm),
    List.find?_cons_of_neg _ (by simpa using fun hc => h6 hc.symm),
    List.find?_cons_of_neg _ (by simpa using fun hc => h7 hc.symm)]
  rfl

/-- Witness for C4 (amended) at the unknown edge type "mystery". -/
theorem C4_witness :
    (("mystery" : String)
        ∉ ["depends_on", "invokes", "exchanges", "persists", "configures",
          "observes", "contains"])
    ∧ (edge_style "mystery" = LineStyle.named "solid"
       ∧ edge_style "depends_on" = LineStyle.named "solid"
       ∧ edge_style "invokes" = LineStyle.named "solid"
       ∧ edge_style "contains" = LineStyle.named "solid"
       ∧ edge_style "exchanges" = LineStyle.dashTuple 0 [4, 2]
       ∧ edge_style "persists" = LineStyle.dashTuple 0 [2, 2]
       ∧ edge_style "configures" = LineStyle.dashTuple 0 [6, 1, 1, 1]
       ∧ edge_style "observes" = LineStyle.dashTuple 0 [1, 1]
       ∧ List.Pairwise (fun a b => a ≠ b)
           [LineStyle.named "solid", LineStyle.dashTuple 0 [4, 2],
            LineStyle.dashTuple 0 [2, 2], LineStyle.dashTuple 0 [6, 1, 1, 1],
            LineStyle.dashTuple 0 [1, 1]]) :=
  ⟨by decide, C4_style_fallback "mystery" (by decide)⟩

/-- C5: the node label is the display name if non-empty, else the
identifier, else the empty string; a label longer than 26 characters is
rendered as its first 23 characters followed by a single ellipsis
character (24 characters in total), and a label of length at most 26 is
rendered unmodified. -/
theorem C5_label_truncation (n : NNode) (s t : String) :
    (26 < (rawLabel n).length →
      _short_label n = strTake (rawLabel n) 23 ++ "…" ∧ (_short_label n).length = 24)
    ∧ ((rawLabel n).length ≤ 26 → _short_label n = rawLabel n)
    ∧ (n.name = some s → s ≠ "" → rawLabel n = s)
    ∧ ((n.name = none ∨ n.name = some "") → n.id = some t → t ≠ "" → rawLabel n = t)
    ∧ ((n.name = none ∨ n.name = some "") → (n.id = none ∨ n.id = some "") →
        rawLabel n = "") := by
  refine ⟨fun h => ?_, fun h => ?_, fun h1 h2 => ?_, fun h1 h2 h3 => ?_, fun h1 h2 => ?_⟩
  · have he : _short_label n = strTake (rawLabel n) 23 ++ "…" := by
      show (if (rawLabel n).length > 26 then strTake (rawLabel n) 23 ++ "…" else rawLabel n)
        = strTake (rawLabel n) 23 ++ "…"
      rw [if_pos h]
    refine ⟨he, ?_⟩
    rw [he, strAppend_length, strTake_length]
    have hmin : min 23 (rawLabel n).length = 23 := by omega
    rw [hmin]
    decide
  · show (if (rawLabel n).length > 26 then strTake (rawLabel n) 23 ++ "…" else rawLabel n)
      = rawLabel n
    rw [if_neg (by omega)]
  · simp [rawLabel, pyOrS, h1, h2]
  · rcases h1 with h1 | h1 <;> simp [rawLabel, pyOrS, h1, h2, h3]
  · rcases h1 with h1 | h1 <;> rcases h2 with h2 | h2 <;> simp [rawLabel, pyOrS, h1, h2]

/-- Witness for C5 at the node `nodeLong` whose 30-character name is
truncated to its first 23 characters plus the ellipsis, and whose raw
label is exactly its display name. -/
theorem C5_witness :
    26 < (rawLabel nodeLong).length
    ∧ nodeLong.name = some "abcdefghijklmnopqrstuvwxyz0123"
    ∧ ("abcdefghijklmnopqrstuvwxyz0123" : String) ≠ ""
    ∧ (_short_label nodeLong = strTake (rawLabel nodeLong) 23 ++ "…"
       ∧ (_short_label nodeLong).length = 24)
    ∧ rawLabel nodeLong = "abcdefghijklmnopqrstuvwxyz0123"
    ∧ _short_label nodeLong = "abcdefghijklmnopqrstuvw…" :=
  ⟨by decide, rfl, by decide,
    (C5_label_truncation nodeLong "abcdefghijklmnopqrstuvwxyz0123" "x").1 (by decide),
    (C5_label_truncation nodeLong "abcdefghijklmnopqrstuvwxyz0123" "x").2.2.1 rfl
      (by decide),
    by decide⟩

/-- C8: a node record whose `layer` field is present but cannot be
interpreted as an integer makes normalization raise (the error propagates
out of `load_graph` to the caller — the layer is never silently zeroed),
while a record with no `layer` field defaults to layer 0. -/
theorem C8_layer_coercion (r : RawNode) (v : JVal) (m : String)
    (hv : r.layerK = some v) (hm : pyInt v = Except.error m)
    (rawNodes : List RawNode) (rawEdges : List RawEdge) (hr : r ∈ rawNodes)
    (r0 : RawNode) (h0 : r0.layerK = none) :
    normNode r = Except.error m
    ∧ (∃ m2, load_graph rawNodes rawEdges = Except.error m2)
    ∧ ∃ nn, normNode r0 = Except.ok nn ∧ nn.layer = 0 := by
  have herr : normNode r = Except.error m := by
    simp only [normNode, hv, hm]
  refine ⟨herr, ?_, ?_⟩
  · rcases normNodes_error_of_mem rawNodes r m hr herr with ⟨m2, h2⟩
    exact ⟨m2, by simp [load_graph, h2]⟩
  · exact ⟨NNode.mk (pyOrS r0.idK r0.IDK) (pyOrS r0.nameK (pyOrS r0.NameK r0.idK)) 0
        (r0.kindK.getD "unknown"), by simp only [normNode, h0], rfl⟩

/-- Witness for C8: the record `rawC8bad` with layer `"abc"` aborts the
load with the coercion error, while `rawC8none` without a layer key
normalizes to layer 0. -/
theorem C8_witness :
    rawC8bad.layerK = some (JVal.jstr "abc")
    ∧ pyInt (JVal.jstr "abc") = Except.error "ValueError: invalid literal for int(): abc"
    ∧ rawC8bad ∈ [rawC8bad]
    ∧ rawC8none.layerK = none
    ∧ (normNode rawC8bad = Except.error "ValueError: invalid literal for int(): abc"
       ∧ (∃ m2, load_graph [rawC8bad] [] = Except.error m2)
       ∧ ∃ nn, normNode rawC8none = Except.ok nn ∧ nn.layer = 0) :=
  ⟨rfl, rfl, by decide, rfl,
    C8_layer_coercion rawC8bad (JVal.jstr "abc") _ rfl rfl [rawC8bad] [] (by decide)
      rawC8none rfl⟩

/-- C9 counterexample: the record `rawC9` supplies its identifier only
through the `ID` key variant and has no name; the claim says the display
name then equals the resolved identifier, but the code's fallback reads
only the raw `id` key, so the normalized name is `none` while the resolved
identifier is `some "x"`. -/
theorem C9_cex :
    rawC9.nameK = none ∧ rawC9.NameK = none
    ∧ normNode rawC9 = Except.ok nnC9
    ∧ nnC9.id = some "x"
    ∧ nnC9.name = none
    ∧ nnC9.name ≠ nnC9.id :=
  ⟨rfl, rfl, rfl, rfl, rfl, by decide⟩

/-- C9 (amended): for a record without name keys, the normalized display
name equals the record's raw `id` key value — which coincides with the
resolved identifier exactly when the `id` key itself is truthy; an
identifier supplied only via `ID` is not propagated into the name. -/
theorem C9_name_fallback (r : RawNode) (nn : NNode)
    (hn1 : r.nameK = none ∨ r.nameK = some "")
    (hn2 : r.NameK = none ∨ r.NameK = some "")
    (hok : normNode r = Except.ok nn) :
    nn.name = r.idK
    ∧ (∀ s : String, r.idK = some s → s ≠ "" → nn.id = some s ∧ nn.name = some s) := by
  unfold normNode at hok
  cases hL : (match r.layerK with | none => Except.ok 0 | some v => pyInt v) with
  | error m => rw [hL] at hok; exact absurd hok (by simp)
  | ok L =>
    rw [hL] at hok
    have hrec := (Except.ok.injEq _ _).mp hok
    constructor
    · rw [← hrec]
      show pyOrS r.nameK (pyOrS r.NameK r.idK) = r.idK
      rcases hn1 with h | h <;> rcases hn2 with h2 | h2 <;> simp [pyOrS, h, h2]
    · intro s hs hne
      constructor
      · rw [← hrec]
        show pyOrS r.idK r.IDK = some s
        rw [hs]
        simp [pyOrS, hne]
      · rw [← hrec]
        show pyOrS r.nameK (pyOrS r.NameK r.idK) = some s
        rcases hn1 with h | h <;> rcases hn2 with h2 | h2 <;>
          simp [pyOrS, h, h2, hs, hne]

/-- Witness for C9 (amended) at `rawNodeA` (truthy `id` key "a", no name
keys): name and identifier both resolve to "a". -/
theorem C9_witness :
    (rawNodeA.nameK = none ∨ rawNodeA.nameK = some "")
    ∧ (rawNodeA.NameK = none ∨ rawNodeA.NameK = some "")
    ∧ normNode rawNodeA = Except.ok nodeA
    ∧ (nodeA.name = rawNodeA.idK
       ∧ ∀ s : String, rawNodeA.idK = some s → s ≠ "" →
           nodeA.id = some s ∧ nodeA.name = some s) :=
  ⟨Or.inl rfl, Or.inl rfl, rfl,
    C9_name_fallback rawNodeA nodeA (Or.inl rfl) (Or.inl rfl) rfl⟩

/-- C10 counterexample: `load_graph` does emit a normalized node with
identifier `None` for a record lacking both `id` and `ID` keys, but
`build_graph` does not admit it under the key `None` — networkx's
`add_node(None)` raises `ValueError`, aborting graph construction. -/
theorem C10_cex :
    normNode rawC10 = Except.ok nnC10
    ∧ nnC10.id = none
    ∧ build_graph [nnC10] [] = Except.error "None cannot be a node" :=
  ⟨rfl, rfl, rfl⟩

/-- C10 (amended): a record with neither an `id` nor an `ID` key is still
normalized (neither skipped nor rejected) into a node whose identifier is
`None`, but `build_graph` then fails with `ValueError("None cannot be a
node")` instead of admitting the node, for any graph containing it. -/
theorem C10_none_id_rejected (r : RawNode) (nn : NNode)
    (hid : r.idK = none) (hID : r.IDK = none) (hok : normNode r = Except.ok nn)
    (nodes : List NNode) (hmem : nn ∈ nodes) (edges : List NEdge) :
    nn.id = none
    ∧ build_graph nodes edges = Except.error "None cannot be a node" := by
  have hnone : nn.id = none := by
    unfold normNode at hok
    cases hL : (match r.layerK with | none => Except.ok 0 | some v => pyInt v) with
    | error m => rw [hL] at hok; exact absurd hok (by simp)
    | ok L =>
      rw [hL] at hok
      have hrec := (Except.ok.injEq _ _).mp hok
      rw [← hrec]
      show pyOrS r.idK r.IDK = none
      simp [pyOrS, hid, hID]
  refine ⟨hnone, ?_⟩
  unfold build_graph
  rw [addNodes_error_of_none nodes [] ⟨nn, hmem, hnone⟩]

/-- Witness for C10 (amended) at the concrete record `rawC10`. -/
theorem C10_witness :
    rawC10.idK = none ∧ rawC10.IDK = none
    ∧ normNode rawC10 = Except.ok nnC10
    ∧ nnC10 ∈ [nnC10]
    ∧ (nnC10.id = none
       ∧ build_graph [nnC10] [] = Except.error "None cannot be a node") :=
  ⟨rfl, rfl, rfl, by decide,
    C10_none_id_rejected rawC10 nnC10 rfl rfl rfl [nnC10] (by decide) []⟩
